import Mathlib

/-!
# Verification of the `cr_trichome` plotting pipeline

A shallow embedding of `src/python/cr_trichome/plot.py`: the path
resolver (`get_last_output_path`, `get_all_iterations`), the record
loader (`load_cells`), the renderer (`plot_cells`,
`plot_cells_at_iter`) and the parallel driver
(`plot_cells_at_all_iterations`), together with theorems settling the
specification's claims about them.

Modelling conventions:
* Python floats are modelled as rationals (`ℚ`); all quantities the
  claims touch are exact in both models.
* File and directory names are sequences of character code points
  (`List ℕ`); Python compares strings code point by code point, which
  the boolean order `lexLe` mirrors.
* Filesystem listings (Python `glob`) are passed to each function as an
  explicit argument; the filesystem itself never changes during one
  pipeline run, matching the spec's static-filesystem assumption.
* Python's `sorted` and `np.sort` are modelled by a stable insertion
  sort `sortList`; on the inputs at hand (total orders, ties only
  between equal values) it returns the same list as any stable
  ascending sort.
* A Python function that can raise becomes a function into `Except`,
  with an error enumeration naming the exception classes the code
  actually raises.
-/

namespace CrTrichome

/-! ## Sorting, as used by `sorted` and `np.sort` -/

/-- Insert `a` into a list, before the first element `b` with `le a b`. -/
def insertSorted {α : Type} (le : α → α → Bool) (a : α) : List α → List α
  | [] => [a]
  | b :: bs => if le a b then a :: b :: bs else b :: insertSorted le a bs

/-- Ascending stable sort; models Python `sorted` and `np.sort`. -/
def sortList {α : Type} (le : α → α → Bool) : List α → List α
  | [] => []
  | a :: as => insertSorted le a (sortList le as)

/-! ## Names and Python string comparison -/

/-- A directory or file name, as the sequence of its character code
points. -/
abbrev Name := List ℕ

/-- Python string comparison `s <= t`: lexicographic on code points,
with a proper prefix sorting before its extensions. -/
def lexLe : Name → Name → Bool
  | [], _ => true
  | _ :: _, [] => false
  | a :: as, b :: bs => if a < b then true else if b < a then false else lexLe as bs

/-! ## The exception classes the pipeline raises -/

inductive PyError
  | valueError   -- `ValueError`: `get_last_output_path` on an empty listing
  | keyError     -- pandas `KeyError`: missing column when an iteration has no records
  | reshapeError -- numpy `ValueError`: `reshape((2, -1))` on an odd-length array
  | indexError   -- `IndexError`: `intracellular[2]` on a too-short vector
deriving DecidableEq

/-! ## PathResolver -/

/-- `get_last_output_path` (plot.py lines 44-48), with the glob listing
of `search_path`'s immediate entries passed in as `folders`: sort the
listing with Python `sorted` and return its last element; raise
`ValueError` when the listing is empty. -/
def get_last_output_path (folders : List Name) : Except PyError Name :=
  match (sortList lexLe folders).getLast? with
  | none => .error .valueError
  | some p => .ok p

/-- Python `int` applied to an all-digit name (code points 48–57):
its base-10 value. -/
def parse_int (s : Name) : ℕ := s.foldl (fun n d => 10 * n + (d - 48)) 0

/-- `get_all_iterations` (plot.py lines 71-74), with the glob listing of
`output_path/cells/json` passed in as `folders`: parse every name with
`int` and sort the values ascending (`np.sort`; duplicates are kept). -/
def get_all_iterations (folders : List Name) : List ℕ :=
  sortList (fun a b => decide (a ≤ b)) (folders.map parse_int)

/-! ## CellRecordLoader -/

/-- One raw record as extracted from a shard file (`b["element"][0]`
per entry of the `"data"` envelope, plot.py line 86): the flat
`cell.mechanics.points` coordinate array and the `cell.intracellular`
vector, both exactly as stored. -/
structure RawRecord where
  points : List ℚ
  intracellular : List ℚ
deriving DecidableEq

/-- `np.array(x, dtype=float).reshape((2, -1)).T` (plot.py lines
88-90): the flat array becomes a `(2, n)` array whose rows are its two
halves, and the transpose pairs the halves index-wise; numpy raises a
`ValueError` when the length is odd. -/
def reshapePoints (xs : List ℚ) : Except PyError (List (ℚ × ℚ)) :=
  if xs.length % 2 = 0 then
    .ok ((xs.take (xs.length / 2)).zip (xs.drop (xs.length / 2)))
  else .error .reshapeError

/-- A loaded cell record: polygon vertices and intracellular vector. -/
structure CellData where
  points : List (ℚ × ℚ)
  intracellular : List ℚ
deriving DecidableEq

/-- `load_cells` (plot.py lines 77-92), with the records already
extracted from each shard's JSON envelope passed in as `shards` (one
inner list per shard file; zero shard files is `shards = []`, a shard
whose `"data"` is empty contributes `[]`).  The concatenated record
list is normalised into a table (`pd.json_normalize`); when it is
empty the table has no `cell.mechanics.points` column and indexing it
raises a pandas `KeyError`; otherwise the points column is reshaped
per record (numpy `ValueError` on the first odd-length array, in
order) and the intracellular column is converted to an array with no
length check at all. -/
def load_cells (shards : List (List RawRecord)) : Except PyError (List CellData) :=
  let results := shards.flatten
  if results.isEmpty then .error .keyError
  else results.mapM (fun r =>
    (reshapePoints r.points).map (fun ps => CellData.mk ps r.intracellular))

/-! ## CellRenderer -/

/-- The colour `plot_cells` picks for one cell (plot.py lines 97-102),
with the viridis colormap passed in as an opaque pure function
(the spec treats the colormap as an external collaborator; the integer
call `viridis(0)` is the colormap's minimum-value colour, `viridis 0`).
Python `intracellular[2]` raises an `IndexError` when the vector has
fewer than 3 components. -/
def cellColor {C : Type} (viridis : ℚ → C) (intra_low intra_high : ℚ)
    (intracellular : List ℚ) : Except PyError C :=
  match intracellular.get? 2 with
  | none => .error .indexError
  | some t =>
    if t < intra_low + (1/2) * (intra_high - intra_low) then .ok (viridis 0)
    else .ok (viridis ((t - intra_low) / (intra_high - intra_low)))

/-- `plot_cells` (plot.py lines 95-104): one polygon patch per cell of
the table, each filled with the colour `cellColor` picks from its
`intracellular[2]`. -/
def plot_cells {C : Type} (viridis : ℚ → C) (df : List CellData)
    (intra_low intra_high : ℚ) : Except PyError (List (List (ℚ × ℚ) × C)) :=
  df.mapM (fun cell =>
    (cellColor viridis intra_low intra_high cell.intracellular).map
      (fun c => (cell.points, c)))

/-- Base-10 digits of `n`, most significant first, with explicit fuel
(`fuel ≥ n` suffices); `decimalDigits 0 = []`. -/
def decimalDigitsAux (fuel : ℕ) (n : ℕ) : List ℕ :=
  match fuel with
  | 0 => []
  | fuel + 1 => if n = 0 then [] else decimalDigitsAux fuel (n / 10) ++ [n % 10]

/-- Base-10 digits of `n`, most significant first. -/
def decimalDigits (n : ℕ) : List ℕ := decimalDigitsAux (n + 1) n

/-- The digits of `"{:020}".format(iteration)`: the decimal expansion
zero-padded to 20 characters, as code points (`0` prints as twenty
`'0'`s either way). -/
def zeroPad20 (iteration : ℕ) : Name :=
  let digits := (decimalDigits iteration).map (fun d => d + 48)
  List.replicate (20 - digits.length) 48 ++ digits

/-- The snapshot file name `"snapshot-{:020}.png".format(iteration)`
(plot.py line 148), as code points. -/
def snapshotName (iteration : ℕ) : Name :=
  [115, 110, 97, 112, 115, 104, 111, 116, 45] ++ zeroPad20 iteration ++ [46, 112, 110, 103]

/-- The world one pipeline call sees and affects: the glob listings the
path resolver reads, the records stored per run and iteration, the
snapshot files already present in the save directory, and counters for
the observable work done (`load_cells` calls, `get_last_output_path`
calls). -/
structure World where
  runListing : List Name
  iterListing : Name → List Name
  shards : Name → ℕ → List (List RawRecord)
  files : List Name
  loads : ℕ
  resolves : ℕ

/-- `plot_cells_at_iter` (plot.py lines 143-161) after the run has been
resolved to the explicit path `output_path`: compute the snapshot
path; if that file exists and `overwrite` is false, return the path at
once — no `load_cells` call, no rendering; otherwise load the
iteration's cells, draw them with `plot_cells` and write the file.
The `save_path` default and the unconditional `mkdir` (a side effect
the claims do not touch) are omitted. -/
def plot_cells_at_iter_resolved (viridis : ℚ → ℚ) (iteration : ℕ)
    (intra_low intra_high : ℚ) (output_path : Name) (overwrite : Bool)
    (w : World) : Except PyError Name × World :=
  let sp := snapshotName iteration
  if sp ∈ w.files ∧ overwrite = false then (.ok sp, w)
  else
    match load_cells (w.shards output_path iteration) with
    | .error e => (.error e, { w with loads := w.loads + 1 })
    | .ok cells =>
      match plot_cells viridis cells intra_low intra_high with
      | .error e => (.error e, { w with loads := w.loads + 1 })
      | .ok _ => (.ok sp, { w with loads := w.loads + 1, files := sp :: w.files })

/-- `plot_cells_at_iter` (plot.py lines 143-161) including its first
step, lines 143-144: when `output_path` is `None`, resolve the latest
run with `get_last_output_path` (counted in `resolves`) before
proceeding. -/
def plot_cells_at_iter (viridis : ℚ → ℚ) (iteration : ℕ)
    (intra_low intra_high : ℚ) (output_path : Option Name)
    (overwrite : Bool) (w : World) : Except PyError Name × World :=
  match output_path with
  | some p => plot_cells_at_iter_resolved viridis iteration intra_low intra_high p overwrite w
  | none =>
    match get_last_output_path w.runListing with
    | .error e => (.error e, { w with resolves := w.resolves + 1 })
    | .ok p => plot_cells_at_iter_resolved viridis iteration intra_low intra_high p overwrite
        { w with resolves := w.resolves + 1 }

/-- A one-record world, used to instantiate the idempotence theorem at
a concrete input: one run, one shard, one cell, no snapshot yet. -/
def worldFresh : World :=
  World.mk [] (fun _ => []) (fun _ _ => [[RawRecord.mk [0, 0] [0, 0, 0]]]) [] 0 0

/-- `worldFresh` after one successful render of iteration 0. -/
def worldRendered : World :=
  World.mk [] (fun _ => []) (fun _ _ => [[RawRecord.mk [0, 0] [0, 0, 0]]])
    [snapshotName 0] 1 0

/-- A world with one run `"a"` holding the single iteration `1`, used
to instantiate the driver theorems at a concrete input. -/
def worldResolve : World :=
  World.mk [[97]] (fun _ => [[49]]) (fun _ _ => [[RawRecord.mk [0, 0] [0, 0, 0]]]) [] 0 0

/-- A world with iterations `1` and `2` where iteration `2` has no
records, so its render fails while iteration `1` succeeds. -/
def worldFailing : World :=
  World.mk [] (fun _ => [[49], [50]])
    (fun _ it => if it = 1 then [[RawRecord.mk [0, 0] [0, 0, 0]]] else []) [] 0 0

/-! ## ParallelSnapshotDriver -/

/-- The argument tuple `((it, intra_min, intra_max), kwargs)` built for
one worker (plot.py lines 180-188). -/
structure RenderJob where
  iteration : ℕ
  intra_low : ℚ
  intra_high : ℚ
  output_path : Option Name
  overwrite : Bool
  transparent : Bool

/-- `__plotting_helper` (plot.py lines 164-166): unpack one argument
tuple and call `plot_cells_at_iter` with it.  Every worker process
starts from the same world `w` (nothing in-memory is shared between
workers). -/
def plotting_helper (viridis : ℚ → ℚ) (w : World) (j : RenderJob) :
    Except PyError Name × World :=
  plot_cells_at_iter viridis j.iteration j.intra_low j.intra_high j.output_path j.overwrite w

/-- `pool.imap`'s gather: hand back, for each submission index
`i < n`, the value tagged `i` among the results the workers have
produced. -/
def poolGather {β : Type} (n : ℕ) (completed : List (ℕ × β)) : List (Option β) :=
  (List.range n).map (fun i => (completed.find? (fun p => p.1 == i)).map Prod.snd)

/-- `pool.imap(f, jobs)` (plot.py line 190) under a worker completion
order `order`: workers finish in the order given (each entry an index
into `jobs`), each producing its job's value tagged with the job's
submission index, and `imap` hands the results back in submission
order. -/
def poolIMap {α β : Type} (f : α → β) (jobs : List α) (order : List ℕ) : List (Option β) :=
  poolGather jobs.length (order.filterMap (fun i => jobs[i]?.map (fun a => (i, f a))))

/-- Lines 177-188 of plot.py: resolve the run once when the caller
passed `None`, list its iterations, and build one argument tuple per
iteration — every tuple carrying the now-explicit output path in its
kwargs.  The returned counter is the number of `get_last_output_path`
calls the driver itself made. -/
def driver_setup (intra_min intra_max : ℚ) (output_path : Option Name)
    (overwrite transparent : Bool) (w : World) :
    Except PyError (List RenderJob × Name × ℕ) :=
  match output_path with
  | some p =>
    .ok ((get_all_iterations (w.iterListing p)).map
      (fun it => RenderJob.mk it intra_min intra_max (some p) overwrite transparent), p, 0)
  | none =>
    match get_last_output_path w.runListing with
    | .error e => .error e
    | .ok p =>
      .ok ((get_all_iterations (w.iterListing p)).map
        (fun it => RenderJob.mk it intra_min intra_max (some p) overwrite transparent), p, 1)

/-- `plot_cells_at_all_iterations` (plot.py lines 169-190):
`driver_setup` builds the jobs, then `list(pool.imap(...))` consumes
the per-job results in submission order — the list of snapshot paths
when every job succeeds, and the exception of the earliest-submitted
failing job otherwise (its re-raise aborts the `list(...)`
consumption).  Each worker runs against the same initial world `w`. -/
def plot_cells_at_all_iterations (viridis : ℚ → ℚ) (intra_min intra_max : ℚ)
    (output_path : Option Name) (overwrite transparent : Bool) (w : World) :
    Except PyError (List Name) :=
  match driver_setup intra_min intra_max output_path overwrite transparent w with
  | .error e => .error e
  | .ok (jobs, _, _) => jobs.mapM (fun j => (plotting_helper viridis w j).1)

/-! ## General lemmas about the sorting and monadic plumbing -/

theorem insertSorted_perm {α : Type} (le : α → α → Bool) (a : α) (l : List α) :
    (insertSorted le a l).Perm (a :: l) := by
  induction l with
  | nil => exact List.Perm.refl _
  | cons b bs ih =>
    simp only [insertSorted]
    by_cases h : le a b = true
    · rw [if_pos h]
    · rw [if_neg h]
      exact List.Perm.trans (ih.cons b) (List.Perm.swap a b bs)

theorem sortList_perm {α : Type} (le : α → α → Bool) (l : List α) :
    (sortList le l).Perm l := by
  induction l with
  | nil => exact List.Perm.refl _
  | cons a as ih =>
    exact List.Perm.trans (insertSorted_perm le a _) (ih.cons a)

theorem insertSorted_pairwise {α : Type} (le : α → α → Bool)
    (htrans : ∀ a b c, le a b = true → le b c = true → le a c = true)
    (htotal : ∀ a b, (le a b || le b a) = true) (a : α) (l : List α)
    (hl : List.Pairwise (fun x y => le x y = true) l) :
    List.Pairwise (fun x y => le x y = true) (insertSorted le a l) := by
  induction l with
  | nil => simp [insertSorted]
  | cons b bs ih =>
    rcases hl with _ | ⟨hb, hbs⟩
    simp only [insertSorted]
    by_cases h : le a b = true
    · rw [if_pos h]
      refine List.Pairwise.cons ?_ (List.Pairwise.cons hb hbs)
      intro x hx
      rcases List.mem_cons.mp hx with rfl | hx
      · exact h
      · exact htrans a b x h (hb x hx)
    · rw [if_neg h]
      refine List.Pairwise.cons ?_ (ih hbs)
      intro x hx
      have hx' := (insertSorted_perm le a bs).mem_iff.mp hx
      rcases List.mem_cons.mp hx' with rfl | hx''
      · rcases Bool.or_eq_true_iff.mp (htotal x b) with hab | hba
        · exact absurd hab h
        · exact hba
      · exact hb x hx''

theorem sortList_pairwise {α : Type} (le : α → α → Bool)
    (htrans : ∀ a b c, le a b = true → le b c = true → le a c = true)
    (htotal : ∀ a b, (le a b || le b a) = true) (l : List α) :
    List.Pairwise (fun x y => le x y = true) (sortList le l) := by
  induction l with
  | nil => exact List.Pairwise.nil
  | cons a as ih => exact insertSorted_pairwise le htrans htotal a _ ih

/-- In a pairwise-`le`-sorted list every element is `le` its last
element (given reflexivity of `le`). -/
theorem pairwise_le_getLast {α : Type} (le : α → α → Bool)
    (hrefl : ∀ a, le a a = true) :
    ∀ (l : List α) (h : l ≠ []), List.Pairwise (fun x y => le x y = true) l →
      ∀ x ∈ l, le x (l.getLast h) = true := by
  intro l
  induction l with
  | nil => intro h; exact absurd rfl h
  | cons a as ih =>
    intro h hp x hx
    rcases hp with _ | ⟨ha, has⟩
    cases as with
    | nil =>
      rcases List.mem_singleton.mp hx with rfl
      simpa using hrefl x
    | cons b bs =>
      rw [List.getLast_cons (by simp)]
      rcases List.mem_cons.mp hx with rfl | hx'
      · exact ha _ (List.getLast_mem _)
      · exact ih (by simp) has x hx'

theorem lexLe_refl (a : Name) : lexLe a a = true := by
  induction a with
  | nil => rfl
  | cons x xs ih => simp [lexLe, ih]

theorem lexLe_total (a b : Name) : (lexLe a b || lexLe b a) = true := by
  induction a generalizing b with
  | nil => simp [lexLe]
  | cons x xs ih =>
    cases b with
    | nil => simp [lexLe]
    | cons y ys =>
      by_cases hxy : x < y
      · simp [lexLe, hxy]
      · by_cases hyx : y < x
        · simp [lexLe, hxy, hyx]
        · simp [lexLe, hxy, hyx, ih ys]

theorem lexLe_trans : ∀ (a b c : Name), lexLe a b = true → lexLe b c = true →
    lexLe a c = true := by
  intro a
  induction a with
  | nil => intro b c _ _; rfl
  | cons x xs ih =>
    intro b c hab hbc
    cases b with
    | nil => simp [lexLe] at hab
    | cons y ys =>
      cases c with
      | nil => simp [lexLe] at hbc
      | cons z zs =>
        simp only [lexLe] at hab hbc ⊢
        rcases lt_trichotomy x y with h1 | h1 | h1
        · rcases lt_trichotomy y z with h2 | h2 | h2
          · simp [lt_trans h1 h2]
          · subst h2; simp [h1]
          · rw [if_neg (asymm h2), if_pos h2] at hbc
            exact absurd hbc (by simp)
        · subst h1
          rw [if_neg (lt_irrefl x), if_neg (lt_irrefl x)] at hab
          rcases lt_trichotomy x z with h2 | h2 | h2
          · simp [h2]
          · subst h2
            rw [if_neg (lt_irrefl x), if_neg (lt_irrefl x)] at hbc
            rw [if_neg (lt_irrefl x), if_neg (lt_irrefl x)]
            exact ih ys zs hab hbc
          · rw [if_neg (asymm h2), if_pos h2] at hbc
            exact absurd hbc (by simp)
        · rw [if_neg (asymm h1), if_pos h1] at hab
          exact absurd hab (by simp)

theorem except_ok_bind {α β : Type} (a : α) (k : α → Except PyError β) :
    (Except.ok a >>= k) = k a := rfl

theorem except_error_bind {α β : Type} (e : PyError) (k : α → Except PyError β) :
    ((Except.error e : Except PyError α) >>= k) = .error e := rfl

theorem mapM_ok_of_forall {α β : Type} (f : α → Except PyError β) (g : α → β)
    (l : List α) (h : ∀ a ∈ l, f a = .ok (g a)) : l.mapM f = .ok (l.map g) := by
  induction l with
  | nil => rfl
  | cons a as ih =>
    rw [List.mapM_cons, h a (by simp), except_ok_bind,
      ih (fun x hx => h x (List.mem_cons_of_mem a hx)), except_ok_bind]
    rfl

theorem mapM_error_first {α β : Type} (f : α → Except PyError β) (l₁ l₂ : List α)
    (a : α) (e : PyError) (hpre : ∀ x ∈ l₁, ∃ b, f x = .ok b) (ha : f a = .error e) :
    (l₁ ++ a :: l₂).mapM f = .error e := by
  induction l₁ with
  | nil =>
    rw [List.nil_append, List.mapM_cons, ha, except_error_bind]
  | cons x xs ih =>
    obtain ⟨b, hb⟩ := hpre x (by simp)
    rw [List.cons_append, List.mapM_cons, hb, except_ok_bind,
      ih (fun y hy => hpre y (List.mem_cons_of_mem x hy)), except_error_bind]

theorem mapM_error_of_mem {α β : Type} (f : α → Except PyError β) (l : List α)
    (a : α) (ha : a ∈ l) (e : PyError) (hf : f a = .error e)
    (huniq : ∀ x e', f x = .error e' → e' = e) :
    l.mapM f = .error e := by
  induction l with
  | nil => cases ha
  | cons x xs ih =>
    rw [List.mapM_cons]
    cases hx : f x with
    | error e' =>
      rw [except_error_bind, huniq x e' hx]
    | ok b =>
      rw [except_ok_bind]
      rcases List.mem_cons.mp ha with rfl | ha'
      · rw [hf] at hx; cases hx
      · rw [ih ha', except_error_bind]

/-! ## C2: loader reshape round trip -/

/-- C2: for every flat numeric coordinate array of even length `2n`,
the loader's points reshape produces exactly `n` 2D points pairing the
first half with the second half index-wise in original order, and
re-flattening the point sequence (all first coordinates in order, then
all second coordinates in order) reproduces the input array exactly. -/
theorem C2_reshape_round_trip (xs : List ℚ) (n : ℕ) (h : xs.length = 2 * n) :
    ∃ ps, reshapePoints xs = .ok ps ∧ ps.length = n ∧
      ps.map Prod.fst ++ ps.map Prod.snd = xs := by
  have hlen : xs.length % 2 = 0 := by omega
  have hdiv : xs.length / 2 = n := by omega
  refine ⟨(xs.take n).zip (xs.drop n), ?_, ?_, ?_⟩
  · rw [reshapePoints, if_pos hlen, hdiv]
  · rw [List.length_zip, List.length_take, List.length_drop]
    omega
  · rw [List.map_fst_zip _ _ (by rw [List.length_take, List.length_drop]; omega),
      List.map_snd_zip _ _ (by rw [List.length_take, List.length_drop]; omega),
      List.take_append_drop]

/-- Witness for C2 at the concrete array `[1, 2, 3, 4]`. -/
theorem C2_reshape_round_trip_witness :
    ([(1 : ℚ), 2, 3, 4].length = 2 * 2) ∧
    ∃ ps, reshapePoints [(1 : ℚ), 2, 3, 4] = .ok ps ∧ ps.length = 2 ∧
      ps.map Prod.fst ++ ps.map Prod.snd = [(1 : ℚ), 2, 3, 4] :=
  ⟨rfl, C2_reshape_round_trip [(1 : ℚ), 2, 3, 4] 2 rfl⟩

/-! ## C5: latest-run discovery -/

/-- C5: for every search root whose listing of immediate
subdirectories is non-empty, `get_last_output_path` returns the entry
that is lexicographically maximal; for an empty listing it fails with
`ValueError` (the spec's `NoRunsFoundError`). -/
theorem C5_latest_run (folders : List Name) :
    (folders ≠ [] → ∃ p, get_last_output_path folders = .ok p ∧ p ∈ folders ∧
      ∀ q ∈ folders, lexLe q p = true) ∧
    (folders = [] → get_last_output_path folders = .error .valueError) := by
  constructor
  · intro hne
    have hsne : sortList lexLe folders ≠ [] := by
      intro hempty
      exact hne ((hempty ▸ sortList_perm lexLe folders).symm.eq_nil)
    refine ⟨(sortList lexLe folders).getLast hsne, ?_, ?_, ?_⟩
    · unfold get_last_output_path
      rw [List.getLast?_eq_getLast _ hsne]
    · exact (sortList_perm lexLe folders).mem_iff.mp (List.getLast_mem hsne)
    · intro q hq
      exact pairwise_le_getLast lexLe lexLe_refl _ hsne
        (sortList_pairwise lexLe lexLe_trans lexLe_total folders) q
        ((sortList_perm lexLe folders).mem_iff.mpr hq)
  · intro h
    subst h
    rfl

/-- Witness for C5 at the concrete two-entry listing `["b", "a"]`. -/
theorem C5_latest_run_witness :
    ([[98], [97]] : List Name) ≠ [] ∧
    ∃ p, get_last_output_path [[98], [97]] = .ok p ∧ p ∈ ([[98], [97]] : List Name) ∧
      ∀ q ∈ ([[98], [97]] : List Name), lexLe q p = true :=
  ⟨by decide, (C5_latest_run [[98], [97]]).1 (by decide)⟩

/-! ## C6: iteration listing -/

/-- C6 counterexample: for the directory names `"01"` and `"1"`
(code points `[48, 49]` and `[49]`), both parsing to the integer `1`,
`get_all_iterations` returns `[1, 1]` — the duplicates are silently
kept, the output is not strictly ascending, and no error of any kind
is raised (the function is total on its inputs). -/
theorem C6_counterexample :
    get_all_iterations [[48, 49], [49]] = [1, 1] ∧
    ¬ List.Pairwise (fun a b => a < b) (get_all_iterations [[48, 49], [49]]) := by
  constructor
  · decide
  · decide

/-- `get_all_iterations` always returns an ascending (weakly sorted)
list. -/
theorem all_iterations_sorted (folders : List Name) :
    List.Pairwise (fun a b => a ≤ b) (get_all_iterations folders) := by
  have htrans : ∀ (a b c : ℕ), decide (a ≤ b) = true → decide (b ≤ c) = true →
      decide (a ≤ c) = true := by
    intro a b c hab hbc
    simp only [decide_eq_true_eq] at hab hbc ⊢
    omega
  have htotal : ∀ (a b : ℕ), (decide (a ≤ b) || decide (b ≤ a)) = true := by
    intro a b
    simp only [Bool.or_eq_true, decide_eq_true_eq]
    omega
  have h := sortList_pairwise _ htrans htotal (folders.map parse_int)
  exact h.imp (fun hx => of_decide_eq_true hx)

/-- C6 amended: `get_all_iterations` returns the multiset of parsed
directory names sorted ascending (not strictly: duplicates arising
when parsing collapses two distinct names are silently kept, and no
`DuplicateIterationError` exists); for the directory names
`"00000000000000000003"` and `"00000000000000000001"` the result is
`[1, 3]`. -/
theorem C6_all_iterations (folders : List Name) :
    List.Pairwise (fun a b => a ≤ b) (get_all_iterations folders) ∧
    (get_all_iterations folders).Perm (folders.map parse_int) ∧
    get_all_iterations [List.replicate 19 48 ++ [51], List.replicate 19 48 ++ [49]] = [1, 3] := by
  exact ⟨all_iterations_sorted folders, sortList_perm _ _, by decide⟩

/-! ## C8: empty iteration -/

/-- C8: when the loader finds zero shard files (`shards = []`) or zero
records (every shard's record list empty, so the concatenation is
`[]`), `load_cells` fails with the empty-iteration error (the pandas
`KeyError` on the missing points column — the spec's
`EmptyIterationError`), and that error is distinct from the structural
reshape error (numpy `ValueError` — the spec's
`MalformedRecordError`). -/
theorem C8_empty_iteration (shards : List (List RawRecord))
    (h : shards = [] ∨ shards.flatten = []) :
    load_cells shards = .error .keyError ∧ PyError.keyError ≠ PyError.reshapeError := by
  have hf : shards.flatten = [] := by
    rcases h with rfl | h
    · rfl
    · exact h
  constructor
  · rw [load_cells]
    simp [hf]
  · decide

/-- Witness for C8 at zero shard files. -/
theorem C8_empty_iteration_witness :
    (([] : List (List RawRecord)) = [] ∨ ([] : List (List RawRecord)).flatten = []) ∧
    load_cells [] = .error .keyError ∧ PyError.keyError ≠ PyError.reshapeError :=
  ⟨Or.inl rfl, C8_empty_iteration [] (Or.inl rfl)⟩

/-! ## C9: malformed records -/

/-- A per-record load step can only fail with the reshape error. -/
theorem load_record_error (r : RawRecord) (e : PyError)
    (h : (reshapePoints r.points).map (fun ps => CellData.mk ps r.intracellular) = .error e) :
    e = .reshapeError := by
  rw [reshapePoints] at h
  by_cases hl : r.points.length % 2 = 0
  · rw [if_pos hl] at h
    exact absurd h (by simp [Except.map])
  · rw [if_neg hl] at h
    simp [Except.map] at h
    exact h.symm

/-- C9 counterexample: a record with a valid (even-length) coordinate
array but an intracellular vector of only 2 components loads
successfully — `load_cells` performs no length check on
`intracellular`, so loading does not fail for such a record, contrary
to the claim. -/
theorem C9_counterexample :
    load_cells [[RawRecord.mk [0, 0, 1, 1] [1, 2]]] =
      .ok [CellData.mk [(0, 1), (0, 1)] [1, 2]] := by
  rfl

/-- C9 amended: a record whose flat coordinate array has odd length
makes loading fail with the reshape error (numpy `ValueError`), fatal
for that iteration's render; but a record whose intracellular vector
has fewer than 3 components passes loading unchecked — the iteration's
render then fails later, with an `IndexError` when the renderer reads
`intracellular[2]`. -/
theorem C9_amended {C : Type} (viridis : ℚ → C) :
    (∀ (shards : List (List RawRecord)) (r : RawRecord), r ∈ shards.flatten →
      r.points.length % 2 = 1 → load_cells shards = .error .reshapeError) ∧
    (∀ (intracellular : List ℚ) (lo hi : ℚ), intracellular.length < 3 →
      cellColor viridis lo hi intracellular = .error .indexError) ∧
    (∀ (shards : List (List RawRecord)), shards.flatten ≠ [] →
      (∀ r ∈ shards.flatten, r.points.length % 2 = 0) →
      load_cells shards = .ok (shards.flatten.map (fun r =>
        CellData.mk ((r.points.take (r.points.length / 2)).zip
          (r.points.drop (r.points.length / 2))) r.intracellular))) := by
  refine ⟨?_, ?_, ?_⟩
  · intro shards r hr hodd
    have hne : shards.flatten ≠ [] := List.ne_nil_of_mem hr
    rw [load_cells]
    rw [if_neg (by simp [List.isEmpty_iff, hne])]
    refine mapM_error_of_mem _ _ r hr _ ?_ load_record_error
    rw [reshapePoints, if_neg (by omega)]
    rfl
  · intro intracellular lo hi hlen
    rw [cellColor.eq_def]
    rw [List.get?_eq_none.mpr (by omega)]
  · intro shards hne hall
    rw [load_cells]
    rw [if_neg (by simp [List.isEmpty_iff, hne])]
    refine mapM_ok_of_forall _ _ _ ?_
    intro r hr
    rw [reshapePoints, if_pos (hall r hr)]
    rfl

/-- Witness for C9's amended statement: the odd-length record
`points = [0]` fails loading with the reshape error, and the 2-component
intracellular vector `[1, 2]` raises `IndexError` at the renderer. -/
theorem C9_amended_witness :
    (RawRecord.mk [(0 : ℚ)] [0, 0, 0] ∈
      ([[RawRecord.mk [(0 : ℚ)] [0, 0, 0]]] : List (List RawRecord)).flatten) ∧
    ([(0 : ℚ)].length % 2 = 1) ∧
    load_cells [[RawRecord.mk [(0 : ℚ)] [0, 0, 0]]] = .error .reshapeError ∧
    ([(1 : ℚ), 2].length < 3) ∧
    cellColor (id : ℚ → ℚ) 0 4 [1, 2] = .error .indexError :=
  ⟨by simp, rfl,
    (C9_amended (id : ℚ → ℚ)).1 [[RawRecord.mk [(0 : ℚ)] [0, 0, 0]]]
      (RawRecord.mk [(0 : ℚ)] [0, 0, 0]) (by simp) rfl,
    by simp, (C9_amended (id : ℚ → ℚ)).2.1 [1, 2] 0 4 (by simp)⟩

/-! ## C1: threshold coloring -/

/-- `plot_cells` on a one-cell table is the cell's colour choice. -/
theorem plot_cells_singleton {C : Type} (viridis : ℚ → C) (cell : CellData) (lo hi : ℚ) :
    plot_cells viridis [cell] lo hi =
      (cellColor viridis lo hi cell.intracellular).map (fun c => [(cell.points, c)]) := by
  rw [plot_cells, List.mapM_cons, List.mapM_nil]
  cases h : cellColor viridis lo hi cell.intracellular with
  | error e => rfl
  | ok c => rfl

/-- C1: the renderer colours a cell record from `t = intracellular[2]`
by the threshold rule — below the midpoint
`intra_low + 0.5 * (intra_high - intra_low)` it gets the colormap's
minimum-value colour `viridis 0`, at or above it gets
`viridis ((t - intra_low) / (intra_high - intra_low))`; in particular
for bounds `0` and `4`, `t = 1.9` maps to the floor colour, `t = 2.0`
to `viridis (1/2)` and `t = 4.0` to `viridis 1`. -/
theorem C1_threshold_coloring {C : Type} (viridis : ℚ → C)
    (intra_low intra_high : ℚ) (hlh : intra_low < intra_high)
    (cell : CellData) (t : ℚ) (ht : cell.intracellular.get? 2 = some t) :
    (t < intra_low + (1/2) * (intra_high - intra_low) →
      plot_cells viridis [cell] intra_low intra_high = .ok [(cell.points, viridis 0)]) ∧
    (intra_low + (1/2) * (intra_high - intra_low) ≤ t →
      plot_cells viridis [cell] intra_low intra_high =
        .ok [(cell.points, viridis ((t - intra_low) / (intra_high - intra_low)))]) ∧
    (intra_low = 0 → intra_high = 4 →
      (t = 19/10 → plot_cells viridis [cell] 0 4 = .ok [(cell.points, viridis 0)]) ∧
      (t = 2 → plot_cells viridis [cell] 0 4 = .ok [(cell.points, viridis (1/2))]) ∧
      (t = 4 → plot_cells viridis [cell] 0 4 = .ok [(cell.points, viridis 1)])) := by
  refine ⟨?_, ?_, ?_⟩
  · intro h
    rw [plot_cells_singleton]
    simp only [cellColor, ht]
    rw [if_pos h]
    rfl
  · intro h
    rw [plot_cells_singleton]
    simp only [cellColor, ht]
    rw [if_neg (not_lt.mpr h)]
    rfl
  · rintro rfl rfl
    refine ⟨?_, ?_, ?_⟩
    · rintro rfl
      rw [plot_cells_singleton]
      simp only [cellColor, ht]
      rw [if_pos (by norm_num)]
      rfl
    · rintro rfl
      rw [plot_cells_singleton]
      simp only [cellColor, ht]
      rw [if_neg (by norm_num), show ((2 : ℚ) - 0) / (4 - 0) = 1/2 by norm_num]
      rfl
    · rintro rfl
      rw [plot_cells_singleton]
      simp only [cellColor, ht]
      rw [if_neg (by norm_num), show ((4 : ℚ) - 0) / (4 - 0) = 1 by norm_num]
      rfl

/-- Witness for C1 at bounds `0, 4` and a cell with
`intracellular[2] = 2`, coloured `viridis (1/2)`. -/
theorem C1_threshold_coloring_witness :
    ((0 : ℚ) < 4) ∧ (([(0 : ℚ), 0, 2] : List ℚ).get? 2 = some 2) ∧
    plot_cells (id : ℚ → ℚ) [CellData.mk [((0 : ℚ), (0 : ℚ))] [0, 0, 2]] 0 4 =
      .ok [([((0 : ℚ), (0 : ℚ))], id (1/2))] :=
  ⟨by norm_num, rfl,
    ((C1_threshold_coloring (id : ℚ → ℚ) 0 4 (by norm_num)
      (CellData.mk [((0 : ℚ), (0 : ℚ))] [0, 0, 2]) 2 rfl).2.2 rfl rfl).2.1 rfl⟩

/-! ## C3: skip-if-exists idempotence -/

/-- When the snapshot file already exists and `overwrite` is false,
the resolved renderer returns the path with the world untouched. -/
theorem resolved_skip (viridis : ℚ → ℚ) (it : ℕ) (lo hi : ℚ) (p : Name) (w : World)
    (h : snapshotName it ∈ w.files) :
    plot_cells_at_iter_resolved viridis it lo hi p false w = (.ok (snapshotName it), w) := by
  simp only [plot_cells_at_iter_resolved]
  rw [if_pos ⟨h, trivial⟩]

/-- A successful resolved render returns the snapshot path, leaves it
present in the final world's files, and touches neither the run
listing nor the resolve counter. -/
theorem resolved_ok (viridis : ℚ → ℚ) (it : ℕ) (lo hi : ℚ) (p : Name) (ov : Bool)
    (w : World) (sp : Name) (w' : World)
    (h : plot_cells_at_iter_resolved viridis it lo hi p ov w = (.ok sp, w')) :
    sp = snapshotName it ∧ snapshotName it ∈ w'.files ∧
      w'.runListing = w.runListing ∧ w'.resolves = w.resolves := by
  simp only [plot_cells_at_iter_resolved] at h
  split at h
  · rw [Prod.mk.injEq, Except.ok.injEq] at h
    rename_i hc
    obtain ⟨h1, h2⟩ := h
    subst h1
    subst h2
    exact ⟨rfl, hc.1, rfl, rfl⟩
  · split at h
    · rw [Prod.mk.injEq] at h
      exact absurd h.1 (by simp)
    · split at h
      · rw [Prod.mk.injEq] at h
        exact absurd h.1 (by simp)
      · rw [Prod.mk.injEq, Except.ok.injEq] at h
        obtain ⟨h1, h2⟩ := h
        subst h1
        subst h2
        exact ⟨rfl, List.mem_cons_self _ _, rfl, rfl⟩

/-- C3: if the target snapshot file already exists and `overwrite` is
false, `plot_cells_at_iter` returns the existing target path with no
`load_cells` call and no change to the files on disk; consequently a
second call right after a successful first one returns the same path
and performs no data load and no write (the file is produced once). -/
theorem C3_skip_if_exists (viridis : ℚ → ℚ) (it : ℕ) (lo hi : ℚ)
    (op : Option Name) (w : World) :
    (∀ p, snapshotName it ∈ w.files →
      (op = some p ∨ (op = none ∧ get_last_output_path w.runListing = .ok p)) →
      (plot_cells_at_iter viridis it lo hi op false w).1 = .ok (snapshotName it) ∧
      (plot_cells_at_iter viridis it lo hi op false w).2.loads = w.loads ∧
      (plot_cells_at_iter viridis it lo hi op false w).2.files = w.files) ∧
    (∀ sp w₁, plot_cells_at_iter viridis it lo hi op false w = (.ok sp, w₁) →
      sp = snapshotName it ∧
      (plot_cells_at_iter viridis it lo hi op false w₁).1 = .ok sp ∧
      (plot_cells_at_iter viridis it lo hi op false w₁).2.loads = w₁.loads ∧
      (plot_cells_at_iter viridis it lo hi op false w₁).2.files = w₁.files) := by
  constructor
  · rintro p hmem (rfl | ⟨rfl, hres⟩)
    · simp only [plot_cells_at_iter]
      rw [resolved_skip viridis it lo hi p w hmem]
      exact ⟨rfl, rfl, rfl⟩
    · simp only [plot_cells_at_iter, hres]
      rw [resolved_skip viridis it lo hi p
        ⟨w.runListing, w.iterListing, w.shards, w.files, w.loads, w.resolves + 1⟩ hmem]
      exact ⟨rfl, rfl, rfl⟩
  · intro sp w₁ h
    cases op with
    | some p =>
      simp only [plot_cells_at_iter] at h ⊢
      obtain ⟨hsp, hmem, -, -⟩ := resolved_ok viridis it lo hi p false w sp w₁ h
      subst hsp
      rw [resolved_skip viridis it lo hi p w₁ hmem]
      exact ⟨rfl, rfl, rfl, rfl⟩
    | none =>
      simp only [plot_cells_at_iter] at h ⊢
      cases hres : get_last_output_path w.runListing with
      | error e =>
        simp only [hres] at h
        rw [Prod.mk.injEq] at h
        exact absurd h.1 (by simp)
      | ok p =>
        simp only [hres] at h
        obtain ⟨hsp, hmem, hrun, -⟩ := resolved_ok viridis it lo hi p false _ sp w₁ h
        subst hsp
        have hres₁ : get_last_output_path w₁.runListing = .ok p := by
          rw [hrun]
          exact hres
        simp only [hres₁]
        rw [resolved_skip viridis it lo hi p
          ⟨w₁.runListing, w₁.iterListing, w₁.shards, w₁.files, w₁.loads, w₁.resolves + 1⟩ hmem]
        exact ⟨trivial, rfl, rfl, rfl⟩

/-- Evaluating one concrete render: with the single stored record
`points = [0, 0]`, `intracellular = [0, 0, 0]` and bounds `0, 4`, the
resolved renderer succeeds, loads once and writes the snapshot. -/
theorem render_concrete (it : ℕ) (p : Name) (w : World)
    (hsh : w.shards p it = [[RawRecord.mk [0, 0] [0, 0, 0]]])
    (hmem : snapshotName it ∉ w.files) :
    plot_cells_at_iter_resolved (fun t => t) it 0 4 p false w =
      (.ok (snapshotName it),
        { w with loads := w.loads + 1, files := snapshotName it :: w.files }) := by
  have hload : load_cells [[RawRecord.mk [0, 0] [0, 0, 0]]] =
      .ok [CellData.mk [(0, 0)] [0, 0, 0]] := rfl
  have hcell : cellColor (fun t : ℚ => t) 0 4 [0, 0, 0] = .ok 0 := by
    have h2 : ([0, 0, 0] : List ℚ).get? 2 = some 0 := rfl
    simp only [cellColor, h2]
    rw [if_pos (by norm_num)]
  have hplot : plot_cells (fun t : ℚ => t) [CellData.mk [(0, 0)] [0, 0, 0]] 0 4 =
      .ok [([((0 : ℚ), (0 : ℚ))], (0 : ℚ))] := by
    rw [plot_cells_singleton,
      show (CellData.mk [((0 : ℚ), (0 : ℚ))] [0, 0, 0]).intracellular = [0, 0, 0] from rfl,
      hcell]
    rfl
  simp only [plot_cells_at_iter_resolved]
  rw [if_neg (by simp [hmem])]
  simp only [hsh, hload, hplot]

/-- Witness for C3: in the concrete one-cell world `worldFresh` the
first call renders iteration 0 (one data load, file written), and the
second call returns the same path with no further load and no further
write. -/
theorem C3_skip_if_exists_witness :
    plot_cells_at_iter (fun t => t) 0 0 4 (some [97]) false worldFresh =
      (.ok (snapshotName 0), worldRendered) ∧
    (plot_cells_at_iter (fun t => t) 0 0 4 (some [97]) false worldRendered).1 =
      .ok (snapshotName 0) ∧
    (plot_cells_at_iter (fun t => t) 0 0 4 (some [97]) false worldRendered).2.loads =
      worldRendered.loads ∧
    (plot_cells_at_iter (fun t => t) 0 0 4 (some [97]) false worldRendered).2.files =
      worldRendered.files := by
  have h1 : plot_cells_at_iter (fun t => t) 0 0 4 (some [97]) false worldFresh =
      (.ok (snapshotName 0), worldRendered) := by
    show plot_cells_at_iter_resolved (fun t => t) 0 0 4 [97] false worldFresh = _
    rw [render_concrete 0 [97] worldFresh rfl (by simp [worldFresh])]
    rfl
  have h2 := (C3_skip_if_exists (fun t => t) 0 0 4 (some [97]) worldFresh).2
    (snapshotName 0) worldRendered h1
  exact ⟨h1, h2.2.1, h2.2.2.1, h2.2.2.2⟩

/-! ## C10: the run is resolved once for the whole batch -/

/-- The resolved renderer never calls `get_last_output_path`. -/
theorem resolved_resolves (viridis : ℚ → ℚ) (it : ℕ) (lo hi : ℚ) (p : Name)
    (ov : Bool) (w : World) :
    (plot_cells_at_iter_resolved viridis it lo hi p ov w).2.resolves = w.resolves := by
  simp only [plot_cells_at_iter_resolved]
  split
  · rfl
  · split
    · rfl
    · split
      · rfl
      · rfl

/-- C10: the driver resolves the output run at most once — not at all
when the caller passed one — and places the same explicit resolved
path into every per-iteration job, so no worker re-resolves the run
(`resolves` stays untouched in every worker), even though
`plot_cells_at_iter` would resolve it itself when handed `none`. -/
theorem C10_single_resolution (viridis : ℚ → ℚ) (imin imax : ℚ)
    (op : Option Name) (ov tr : Bool) (w : World)
    (jobs : List RenderJob) (p : Name) (k : ℕ)
    (hsetup : driver_setup imin imax op ov tr w = .ok (jobs, p, k)) :
    k ≤ 1 ∧
    (∀ q, op = some q → p = q ∧ k = 0) ∧
    (op = none → get_last_output_path w.runListing = .ok p ∧ k = 1) ∧
    (∀ j ∈ jobs, j.output_path = some p) ∧
    (∀ j ∈ jobs, (plotting_helper viridis w j).2.resolves = w.resolves) := by
  have hjobs : jobs = (get_all_iterations (w.iterListing p)).map
      (fun it => RenderJob.mk it imin imax (some p) ov tr) ∧
      (k = 0 ∧ ∃ q, op = some q ∧ p = q) ∨
      jobs = (get_all_iterations (w.iterListing p)).map
      (fun it => RenderJob.mk it imin imax (some p) ov tr) ∧
      (k = 1 ∧ op = none ∧ get_last_output_path w.runListing = .ok p) := by
    cases op with
    | some q =>
      simp only [driver_setup, Except.ok.injEq, Prod.mk.injEq] at hsetup
      obtain ⟨h1, h2, h3⟩ := hsetup
      subst h2
      exact Or.inl ⟨h1.symm, h3.symm, q, rfl, rfl⟩
    | none =>
      simp only [driver_setup] at hsetup
      cases hres : get_last_output_path w.runListing with
      | error e =>
        rw [hres] at hsetup
        exact absurd hsetup (by simp)
      | ok q =>
        rw [hres] at hsetup
        simp only [Except.ok.injEq, Prod.mk.injEq] at hsetup
        obtain ⟨h1, h2, h3⟩ := hsetup
        subst h2
        exact Or.inr ⟨h1.symm, h3.symm, rfl, rfl⟩
  have hout : ∀ j ∈ jobs, j.output_path = some p := by
    rcases hjobs with ⟨hj, -⟩ | ⟨hj, -⟩ <;>
    · subst hj
      intro j hjm
      obtain ⟨it, -, rfl⟩ := List.mem_map.mp hjm
      rfl
  refine ⟨?_, ?_, ?_, hout, ?_⟩
  · rcases hjobs with ⟨-, hk, -⟩ | ⟨-, hk, -⟩ <;> omega
  · intro q hq
    rcases hjobs with ⟨-, hk, q', hq', hpq⟩ | ⟨-, -, hnone, -⟩
    · rw [hq] at hq'
      cases hq'
      exact ⟨hpq, hk⟩
    · rw [hq] at hnone
      cases hnone
  · intro hnone
    rcases hjobs with ⟨-, -, q', hq', -⟩ | ⟨-, hk, -, hres⟩
    · rw [hnone] at hq'
      cases hq'
    · exact ⟨hres, hk⟩
  · intro j hjm
    have hop := hout j hjm
    simp only [plotting_helper, plot_cells_at_iter, hop]
    exact resolved_resolves viridis j.iteration j.intra_low j.intra_high p j.overwrite w

/-- Witness for C10 in the concrete world `worldResolve`: the caller
passes no run, the driver resolves `"a"` exactly once, and the single
job for iteration 1 carries the explicit path and triggers no resolver
call in its worker. -/
theorem C10_single_resolution_witness :
    driver_setup 0 4 none false false worldResolve =
      .ok ([RenderJob.mk 1 0 4 (some [97]) false false], [97], 1) ∧
    (∀ j ∈ [RenderJob.mk 1 0 4 (some [97]) false false], j.output_path = some [97]) ∧
    (∀ j ∈ [RenderJob.mk 1 0 4 (some [97]) false false],
      (plotting_helper (fun t => t) worldResolve j).2.resolves = worldResolve.resolves) := by
  have h := C10_single_resolution (fun t => t) 0 4 none false false worldResolve
    [RenderJob.mk 1 0 4 (some [97]) false false] [97] 1 rfl
  exact ⟨rfl, h.2.2.2.1, h.2.2.2.2⟩

/-! ## C4: batch result is in iteration order -/

/-- Any successful `plot_cells_at_iter` call returns exactly the
iteration's snapshot path. -/
theorem plot_ok_name (viridis : ℚ → ℚ) (it : ℕ) (lo hi : ℚ) (op : Option Name)
    (ov : Bool) (w : World) (sp : Name)
    (h : (plot_cells_at_iter viridis it lo hi op ov w).1 = .ok sp) :
    sp = snapshotName it := by
  cases op with
  | some p =>
    simp only [plot_cells_at_iter] at h
    have hpair : plot_cells_at_iter_resolved viridis it lo hi p ov w =
        (.ok sp, (plot_cells_at_iter_resolved viridis it lo hi p ov w).2) := by
      rw [← h]
    exact (resolved_ok viridis it lo hi p ov w sp _ hpair).1
  | none =>
    simp only [plot_cells_at_iter] at h
    cases hres : get_last_output_path w.runListing with
    | error e =>
      simp only [hres] at h
      exact absurd h (by simp)
    | ok p =>
      simp only [hres] at h
      have hpair : plot_cells_at_iter_resolved viridis it lo hi p ov
          ⟨w.runListing, w.iterListing, w.shards, w.files, w.loads, w.resolves + 1⟩ =
          (.ok sp, (plot_cells_at_iter_resolved viridis it lo hi p ov
            ⟨w.runListing, w.iterListing, w.shards, w.files, w.loads, w.resolves + 1⟩).2) := by
        rw [← h]
      exact (resolved_ok viridis it lo hi p ov _ sp _ hpair).1

/-- `pool.imap` hands results back in submission order no matter in
which order the workers complete: for any completion order that is a
permutation of the job indices, the gathered sequence is exactly the
jobs' values in submission order. -/
theorem poolIMap_perm_eq_map {α β : Type} (f : α → β) (jobs : List α) (order : List ℕ)
    (hperm : order.Perm (List.range jobs.length)) :
    poolIMap f jobs order = jobs.map (fun a => some (f a)) := by
  apply List.ext_getElem?
  intro i
  by_cases hi : i < jobs.length
  · have hmemi : i ∈ order := hperm.mem_iff.mpr (List.mem_range.mpr hi)
    have hmem : (i, f jobs[i]) ∈
        order.filterMap (fun j => jobs[j]?.map (fun a => (j, f a))) := by
      apply List.mem_filterMap.mpr
      refine ⟨i, hmemi, ?_⟩
      rw [List.getElem?_eq_getElem hi]
      rfl
    have hsome : (List.find? (fun p => p.1 == i)
        (order.filterMap (fun j => jobs[j]?.map (fun a => (j, f a))))).isSome = true :=
      List.find?_isSome.mpr ⟨(i, f jobs[i]), hmem, by simp⟩
    obtain ⟨x, hx⟩ := Option.isSome_iff_exists.mp hsome
    have hx1 : x.1 = i := by
      have hbeq := List.find?_some hx
      simpa using hbeq
    have hxval : x.2 = f jobs[i] := by
      have hxmem := List.mem_of_find?_eq_some hx
      obtain ⟨j, hj, hjx⟩ := List.mem_filterMap.mp hxmem
      cases hg : jobs[j]? with
      | none => rw [hg] at hjx; cases hjx
      | some a =>
        rw [hg] at hjx
        rw [Option.map_some', Option.some.injEq] at hjx
        subst hjx
        have hji : j = i := hx1
        subst hji
        rw [List.getElem?_eq_getElem hi, Option.some.injEq] at hg
        rw [← hg]
    rw [poolIMap, poolGather]
    rw [List.getElem?_map, List.getElem?_range hi, List.getElem?_map,
      List.getElem?_eq_getElem hi]
    rw [Option.map_some', Option.map_some', hx, Option.map_some', hxval]
  · have h1 : (poolIMap f jobs order).length ≤ i := by
      rw [poolIMap, poolGather, List.length_map, List.length_range]
      omega
    have h2 : (jobs.map (fun a => some (f a))).length ≤ i := by
      rw [List.length_map]
      omega
    rw [List.getElem?_eq_none h1, List.getElem?_eq_none h2]

/-- C4: the batch driver's result sequence pairs up index-wise with
the iterations in ascending order — its i-th entry is the snapshot
path of the i-th discovered iteration — and the pool gather returns
the per-job values in submission order for every possible worker
completion order. -/
theorem C4_batch_ordering (viridis : ℚ → ℚ) (imin imax : ℚ) (op : Option Name)
    (ov tr : Bool) (w : World) (jobs : List RenderJob) (p : Name) (k : ℕ)
    (order : List ℕ)
    (hsetup : driver_setup imin imax op ov tr w = .ok (jobs, p, k))
    (hperm : order.Perm (List.range jobs.length))
    (hok : ∀ j ∈ jobs, ∃ sp, (plotting_helper viridis w j).1 = .ok sp) :
    List.Pairwise (fun a b => a ≤ b) (jobs.map (fun j => j.iteration)) ∧
    plot_cells_at_all_iterations viridis imin imax op ov tr w =
      .ok (jobs.map (fun j => snapshotName j.iteration)) ∧
    poolIMap (fun j => (plotting_helper viridis w j).1) jobs order =
      jobs.map (fun j => some (Except.ok (snapshotName j.iteration))) := by
  have hjobs : jobs = (get_all_iterations (w.iterListing p)).map
      (fun it => RenderJob.mk it imin imax (some p) ov tr) := by
    cases op with
    | some q =>
      simp only [driver_setup, Except.ok.injEq, Prod.mk.injEq] at hsetup
      obtain ⟨h1, h2, -⟩ := hsetup
      subst h2
      exact h1.symm
    | none =>
      simp only [driver_setup] at hsetup
      cases hres : get_last_output_path w.runListing with
      | error e =>
        rw [hres] at hsetup
        exact absurd hsetup (by simp)
      | ok q =>
        rw [hres] at hsetup
        simp only [Except.ok.injEq, Prod.mk.injEq] at hsetup
        obtain ⟨h1, h2, -⟩ := hsetup
        subst h2
        exact h1.symm
  have hfun : ∀ j ∈ jobs, (plotting_helper viridis w j).1 =
      .ok (snapshotName j.iteration) := by
    intro j hj
    obtain ⟨sp, hsp⟩ := hok j hj
    have hname := plot_ok_name viridis j.iteration j.intra_low j.intra_high
      j.output_path j.overwrite w sp hsp
    rw [hsp, hname]
  refine ⟨?_, ?_, ?_⟩
  · rw [hjobs, List.map_map]
    rw [show ((fun j : RenderJob => j.iteration) ∘
      (fun it => RenderJob.mk it imin imax (some p) ov tr)) = id from rfl, List.map_id]
    exact all_iterations_sorted _
  · simp only [plot_cells_at_all_iterations, hsetup]
    exact mapM_ok_of_forall _ _ jobs hfun
  · rw [poolIMap_perm_eq_map _ jobs order hperm]
    exact List.map_congr_left (fun j hj => by rw [hfun j hj])

/-- Witness for C4 at the one-iteration world `worldResolve` with the
explicit run `"a"` and the (only possible) completion order `[0]`. -/
theorem C4_batch_ordering_witness :
    driver_setup 0 4 (some [97]) false false worldResolve =
      .ok ([RenderJob.mk 1 0 4 (some [97]) false false], [97], 0) ∧
    ([0] : List ℕ).Perm (List.range 1) ∧
    plot_cells_at_all_iterations (fun t => t) 0 4 (some [97]) false false worldResolve =
      .ok [snapshotName 1] ∧
    poolIMap (fun j => (plotting_helper (fun t => t) worldResolve j).1)
      [RenderJob.mk 1 0 4 (some [97]) false false] [0] =
      [some (Except.ok (snapshotName 1))] := by
  have hok : ∀ j ∈ [RenderJob.mk 1 0 4 (some [97]) false false],
      ∃ sp, (plotting_helper (fun t => t) worldResolve j).1 = .ok sp := by
    intro j hj
    rw [List.mem_singleton] at hj
    subst hj
    refine ⟨snapshotName 1, ?_⟩
    show (plot_cells_at_iter_resolved (fun t => t) 1 0 4 [97] false worldResolve).1 = _
    rw [render_concrete 1 [97] worldResolve rfl (by simp [worldResolve])]
  have h := C4_batch_ordering (fun t => t) 0 4 (some [97]) false false worldResolve
    [RenderJob.mk 1 0 4 (some [97]) false false] [97] 0 [0] rfl
    (List.Perm.refl [0]) hok
  exact ⟨rfl, List.Perm.refl [0], h.2.1, h.2.2⟩

/-! ## C7: worker failures abort the batch -/

/-- C7 counterexample: in `worldFailing` iteration 1 renders fine but
iteration 2 has no records; the batch returns the bare exception
`keyError` — a single error value that carries no per-iteration
statuses and drops iteration 1's outcome entirely, so the batch result
does not distinguish rendered, skipped and failed per iteration. -/
theorem C7_counterexample :
    plot_cells_at_all_iterations (fun t => t) 0 4 (some [97]) false false worldFailing =
      .error .keyError ∧
    (plotting_helper (fun t => t) worldFailing
      (RenderJob.mk 1 0 4 (some [97]) false false)).1 = .ok (snapshotName 1) := by
  have h1 : (plotting_helper (fun t => t) worldFailing
      (RenderJob.mk 1 0 4 (some [97]) false false)).1 = .ok (snapshotName 1) := by
    show (plot_cells_at_iter_resolved (fun t => t) 1 0 4 [97] false worldFailing).1 = _
    rw [render_concrete 1 [97] worldFailing rfl (by simp [worldFailing])]
  refine ⟨?_, h1⟩
  show List.mapM (fun j => (plotting_helper (fun t => t) worldFailing j).1)
    [RenderJob.mk 1 0 4 (some [97]) false false,
     RenderJob.mk 2 0 4 (some [97]) false false] = .error .keyError
  exact mapM_error_first _ [RenderJob.mk 1 0 4 (some [97]) false false] []
    (RenderJob.mk 2 0 4 (some [97]) false false) .keyError
    (fun x hx => by
      rw [List.mem_singleton] at hx
      subst hx
      exact ⟨snapshotName 1, h1⟩) rfl

/-- C7 amended: the batch collects no per-iteration statuses.  When
every job succeeds the driver returns the bare list of snapshot paths
(a job skipped because its file existed and a freshly rendered one are
indistinguishable, both contributing their path); when some job fails,
the earliest-submitted failing job's exception is re-raised by the
result consumption and becomes the batch's sole outcome, discarding
every other iteration's result — the failure is therefore not silently
dropped, but it is also not collected per iteration. -/
theorem C7_amended (viridis : ℚ → ℚ) (imin imax : ℚ) (op : Option Name)
    (ov tr : Bool) (w : World) (jobs : List RenderJob) (p : Name) (k : ℕ)
    (hsetup : driver_setup imin imax op ov tr w = .ok (jobs, p, k)) :
    ((∀ j ∈ jobs, ∃ sp, (plotting_helper viridis w j).1 = .ok sp) →
      plot_cells_at_all_iterations viridis imin imax op ov tr w =
        .ok (jobs.map (fun j => snapshotName j.iteration))) ∧
    (∀ jpre jfail jpost e, jobs = jpre ++ jfail :: jpost →
      (∀ j ∈ jpre, ∃ sp, (plotting_helper viridis w j).1 = .ok sp) →
      (plotting_helper viridis w jfail).1 = .error e →
      plot_cells_at_all_iterations viridis imin imax op ov tr w = .error e) := by
  constructor
  · intro hok
    have hfun : ∀ j ∈ jobs, (plotting_helper viridis w j).1 =
        .ok (snapshotName j.iteration) := by
      intro j hj
      obtain ⟨sp, hsp⟩ := hok j hj
      have hname := plot_ok_name viridis j.iteration j.intra_low j.intra_high
        j.output_path j.overwrite w sp hsp
      rw [hsp, hname]
    simp only [plot_cells_at_all_iterations, hsetup]
    exact mapM_ok_of_forall _ _ jobs hfun
  · intro jpre jfail jpost e hsplit hpre hfail
    simp only [plot_cells_at_all_iterations, hsetup]
    rw [hsplit]
    exact mapM_error_first _ jpre jpost jfail e hpre hfail

/-- Witness for C7's amended statement in `worldFailing`: iteration 1
succeeds, iteration 2 fails with `keyError`, and the batch's outcome
is exactly that exception. -/
theorem C7_amended_witness :
    driver_setup 0 4 (some [97]) false false worldFailing =
      .ok ([RenderJob.mk 1 0 4 (some [97]) false false,
            RenderJob.mk 2 0 4 (some [97]) false false], [97], 0) ∧
    (plotting_helper (fun t => t) worldFailing
      (RenderJob.mk 2 0 4 (some [97]) false false)).1 = .error .keyError ∧
    plot_cells_at_all_iterations (fun t => t) 0 4 (some [97]) false false worldFailing =
      .error .keyError := by
  have hfail : (plotting_helper (fun t => t) worldFailing
      (RenderJob.mk 2 0 4 (some [97]) false false)).1 = .error .keyError := rfl
  have hpre : ∀ j ∈ [RenderJob.mk 1 0 4 (some [97]) false false],
      ∃ sp, (plotting_helper (fun t => t) worldFailing j).1 = .ok sp := by
    intro j hj
    rw [List.mem_singleton] at hj
    subst hj
    refine ⟨snapshotName 1, ?_⟩
    show (plot_cells_at_iter_resolved (fun t => t) 1 0 4 [97] false worldFailing).1 = _
    rw [render_concrete 1 [97] worldFailing rfl (by simp [worldFailing])]
  exact ⟨rfl, hfail,
    (C7_amended (fun t => t) 0 4 (some [97]) false false worldFailing
      [RenderJob.mk 1 0 4 (some [97]) false false,
       RenderJob.mk 2 0 4 (some [97]) false false] [97] 0 rfl).2
      [RenderJob.mk 1 0 4 (some [97]) false false]
      (RenderJob.mk 2 0 4 (some [97]) false false)
      [] .keyError rfl hpre hfail⟩

end CrTrichome
